import Mathlib

/-!
Shallow embedding of the whisper speech-to-text service
(src/backend/whisper-service/main.py) and proofs of the specification
claims about it.

The service is integration glue around an external transcription model:
each handler is embedded as a pure function from its inputs and from the
outcomes of its two external effects (reading the uploaded bytes, invoking
the model) to a record holding the HTTP response together with the
temp-file side effects (whether a staged file was created, with which
suffix, and whether it survives the request).
-/

namespace WhisperService

/-- Opaque stand-in for a loaded faster-whisper model instance.  The global
`whisper_model` variable of main.py is `Option Model`: `none` models the
Python value `None`. -/
structure Model where
  id : Nat
deriving DecidableEq

/-- The process environment: `os.environ.get k` returns `none` when the
variable is unset. -/
def Env : Type := String → Option String

/-- Embeds `os.environ.get(k, d)`. -/
def envGet (env : Env) (k d : String) : String :=
  (env k).getD d

/- ### Embedding of os.path.splitext (CPython posixpath semantics)

The handlers call `os.path.splitext(filename)[1]`.  CPython splits at the
last dot of the path, provided that dot lies after the last path separator
and the basename is not made solely of leading dots before it (so a file
such as ".bashrc" has no extension).  We embed this with a helper that
splits a list at the last occurrence of a character. -/

/-- Splits `cs` at the LAST occurrence of `sep`:
returns `some (pre, suf)` with `cs = pre ++ sep :: suf` and `sep ∉ suf`,
or `none` when `sep` does not occur. -/
def splitAtLastChar (sep : Char) : List Char → Option (List Char × List Char)
  | [] => none
  | c :: cs =>
    match splitAtLastChar sep cs with
    | some (pre, suf) => some (c :: pre, suf)
    | none => if c = sep then some ([], cs) else none

/-- The basename: everything after the last path separator. -/
def baseOf (cs : List Char) : List Char :=
  match splitAtLastChar '/' cs with
  | some (_, b) => b
  | none => cs

/-- Embeds CPython's `posixpath.splitext`: the extension starts at the last
dot of the path when that dot lies in the basename and the basename has a
character other than a dot before it (leading dots never start an
extension). -/
def splitext (p : String) : String × String :=
  let cs := p.toList
  let dir : List Char :=
    match splitAtLastChar '/' cs with
    | some (pre, _) => pre ++ ['/']
    | none => []
  let base := baseOf cs
  let lead := base.takeWhile (fun c => c = '.')
  let stem := base.dropWhile (fun c => c = '.')
  match splitAtLastChar '.' stem with
  | none => (p, "")
  | some (pre, suf) => (⟨dir ++ lead ++ pre⟩, ⟨'.' :: suf⟩)

/-- Embeds `audio.filename or "audio.webm"` (Python `or`: both `None` and
the empty string fall back to the default). -/
def effFilename : Option String → String
  | none => "audio.webm"
  | some f => if f = "" then "audio.webm" else f

/-- Embeds lines 127-128 / 197-198:
`ext = os.path.splitext(filename)[1] or ".webm"` applied to the effective
filename; this is the suffix of the staged temporary file. -/
def stagedSuffix (filename : Option String) : String :=
  let ext0 := (splitext (effFilename filename)).2
  if ext0 = "" then ".webm" else ext0

/- ### Model loading (load_whisper_model, lines 37-67) -/

/-- The keyword arguments main.py passes to the `WhisperModel` constructor. -/
structure ModelArgs where
  model_size : String
  device : String
  compute_type : String
deriving DecidableEq

/-- Embeds lines 47-53: configuration read from the environment.
`compute_type` defaults to "int8", and is re-read with default "float16"
when the device string equals "cuda". -/
def loadArgs (env : Env) : ModelArgs :=
  let model_size := envGet env "WHISPER_MODEL" "small"
  let device := envGet env "WHISPER_DEVICE" "cpu"
  let compute_type := envGet env "WHISPER_COMPUTE_TYPE" "int8"
  let compute_type :=
    if device = "cuda" then envGet env "WHISPER_COMPUTE_TYPE" "float16"
    else compute_type
  { model_size := model_size, device := device, compute_type := compute_type }

/-- Result of `load_whisper_model`: the new value of the global
`whisper_model` and the function's return value. -/
structure LoadResult where
  whisper_model : Option Model
  ret : Option Model
deriving DecidableEq

/-- Embeds `load_whisper_model` (lines 37-67).  External effects are
parameters: `importOk` is whether `from faster_whisper import WhisperModel`
succeeds, and `construct` is the `WhisperModel(...)` constructor, which may
raise (`Except.error`).  `g` is the value of the global `whisper_model` on
entry.  Both failure paths are caught in the source (`return None`), so the
embedding is total: no exception escapes. -/
def load_whisper_model (g : Option Model) (importOk : Bool) (env : Env)
    (construct : ModelArgs → Except String Model) : LoadResult :=
  if importOk = false then
    { whisper_model := g, ret := none }
  else
    match construct (loadArgs env) with
    | Except.ok m => { whisper_model := some m, ret := some m }
    | Except.error _ => { whisper_model := g, ret := none }

/- ### Health endpoint (health_check, lines 98-106) -/

/-- Response model of GET /health. -/
structure HealthResponse where
  status : String
  model_loaded : Bool
  model_name : String
deriving DecidableEq

/-- Embeds `health_check` (lines 98-106): a pure read of the global handle
and the environment. -/
def health_check (whisper_model : Option Model) (env : Env) : HealthResponse :=
  let model_name := envGet env "WHISPER_MODEL" "small"
  { status := if whisper_model.isSome then "ok" else "model_not_loaded"
    model_loaded := whisper_model.isSome
    model_name := model_name }

/- ### Transcription endpoints (lines 109-232)

Each handler is a pure function of: the global model handle, the uploaded
filename, the language form field, the outcome of `await audio.read()`
(`UploadRead`), and the external model's `transcribe` method, given as a
function from the decoding parameters the handler passes to the outcome of
the call (`ModelCall`). -/

/-- A segment object produced by the external model: `segment.start`,
`segment.end`, `segment.text` (floats embedded as rationals). -/
structure RawSegment where
  start : Rat
  «end» : Rat
  text : String

/-- A segment dict placed in the response:
`{"start": ..., "end": ..., "text": segment.text.strip()}`. -/
structure SegmentOut where
  start : Rat
  «end» : Rat
  text : String

/-- The keyword arguments the handlers pass to `whisper_model.transcribe`. -/
structure DecodeParams where
  language : Option String
  beam_size : Nat
  best_of : Nat
  temperature : Nat
  vad_filter : Bool

/-- Outcome of `await audio.read()` (plus the subsequent `tmp.write`):
either the uploaded bytes, or an exception with message `msg`. -/
inductive UploadRead where
  | ok (content : List Nat)
  | err (msg : String)

/-- Outcome of `whisper_model.transcribe(...)`: the segment iterator
together with `info.language` and `info.duration`, or an exception. -/
inductive ModelCall where
  | ok (segments : List RawSegment) (language : String) (duration : Rat)
  | err (msg : String)

/-- The decoding parameters of POST /transcribe (lines 141-148). -/
def params5 (language : Option String) : DecodeParams :=
  { language := language, beam_size := 5, best_of := 5
    temperature := 0, vad_filter := true }

/-- The decoding parameters of POST /transcribe-stream (lines 206-213). -/
def params3 (language : Option String) : DecodeParams :=
  { language := language, beam_size := 3, best_of := 3
    temperature := 0, vad_filter := true }

/-- Embeds the loop of lines 151-158 / 215-221: each produced segment is
mapped to a response dict with `text` stripped; `.strip()` is embedded as
`String.trim`. -/
def shapeSegments (raw : List RawSegment) : List SegmentOut :=
  raw.map fun s => { start := s.start, «end» := s.«end», text := s.text.trim }

/-- Embeds lines 152-161: `full_text` collects `segment.text.strip()` per
segment and `text = "".join(full_text)`. -/
def fullText (raw : List RawSegment) : String :=
  String.join (raw.map fun s => s.text.trim)

/-- Response model of POST /transcribe. -/
structure TranscriptionResult where
  text : String
  language : String
  duration : Rat
  segments : List SegmentOut

/-- HTTP outcome of POST /transcribe: a 200 body, or a shaped
`HTTPException` with status code and detail. -/
inductive TResponse where
  | ok (r : TranscriptionResult)
  | error (status : Nat) (detail : String)

/-- Response body of POST /transcribe-stream (no concatenated text field). -/
structure StreamResult where
  segments : List SegmentOut
  language : String
  duration : Rat

/-- HTTP outcome of POST /transcribe-stream: a 200 body, a shaped
`HTTPException`, or an exception escaping the handler unshaped
(`unhandled`, carrying the underlying exception text). -/
inductive SResponse where
  | ok (r : StreamResult)
  | error (status : Nat) (detail : String)
  | unhandled (msg : String)

/-- Observable outcome of one POST /transcribe request: the response plus
the temp-file side effects.  `tempCreated` is whether
`tempfile.NamedTemporaryFile(delete=False, suffix=ext)` ran (creating the
staged file), `tempSuffix` its suffix, and `tempRemains` whether the staged
file still exists once the response is produced. -/
structure TranscribeOutcome where
  response : TResponse
  tempCreated : Bool
  tempSuffix : Option String
  tempRemains : Bool

/-- Same observables for POST /transcribe-stream. -/
structure StreamOutcome where
  response : SResponse
  tempCreated : Bool
  tempSuffix : Option String
  tempRemains : Bool

/-- Embeds `transcribe` (lines 109-179).  Control flow of the source:
the 503 check precedes all file handling; the temp file is created with
suffix `stagedSuffix filename`; a read failure raises a 400
`HTTPException` from inside the `with` block, BEFORE the `try/finally`
that unlinks the file, so the staged file survives that path; the model
call runs inside `try ... except ... finally os.unlink`, so on both the
success and the 500 path the file is deleted. -/
def transcribe (whisper_model : Option Model) (filename : Option String)
    (language : Option String) (readAudio : UploadRead)
    (modelTranscribe : DecodeParams → ModelCall) : TranscribeOutcome :=
  match whisper_model with
  | none =>
    { response := TResponse.error 503
        "Whisper model not loaded. Please check server logs."
      tempCreated := false, tempSuffix := none, tempRemains := false }
  | some _ =>
    let ext := stagedSuffix filename
    match readAudio with
    | UploadRead.err e =>
      { response := TResponse.error 400 ("Failed to read audio: " ++ e)
        tempCreated := true, tempSuffix := some ext, tempRemains := true }
    | UploadRead.ok _ =>
      match modelTranscribe (params5 language) with
      | ModelCall.ok raw lang dur =>
        { response := TResponse.ok
            { text := fullText raw, language := lang, duration := dur
              segments := shapeSegments raw }
          tempCreated := true, tempSuffix := some ext, tempRemains := false }
      | ModelCall.err e =>
        { response := TResponse.error 500 ("Transcription failed: " ++ e)
          tempCreated := true, tempSuffix := some ext, tempRemains := false }

/-- Embeds `transcribe_stream` (lines 182-232).  Same 503 check and temp
file staging, but the read happens inside the `with` block with no
`try/except` at all: a read failure escapes unshaped and leaks the staged
file.  The model call runs inside `try ... finally os.unlink` with no
`except`, so a model failure also escapes unshaped but the file is
deleted. -/
def transcribe_stream (whisper_model : Option Model)
    (filename : Option String) (language : Option String)
    (readAudio : UploadRead)
    (modelTranscribe : DecodeParams → ModelCall) : StreamOutcome :=
  match whisper_model with
  | none =>
    { response := SResponse.error 503 "Whisper model not loaded"
      tempCreated := false, tempSuffix := none, tempRemains := false }
  | some _ =>
    let ext := stagedSuffix filename
    match readAudio with
    | UploadRead.err e =>
      { response := SResponse.unhandled e
        tempCreated := true, tempSuffix := some ext, tempRemains := true }
    | UploadRead.ok _ =>
      match modelTranscribe (params3 language) with
      | ModelCall.ok raw lang dur =>
        { response := SResponse.ok
            { segments := shapeSegments raw, language := lang, duration := dur }
          tempCreated := true, tempSuffix := some ext, tempRemains := false }
      | ModelCall.err e =>
        { response := SResponse.unhandled e
          tempCreated := true, tempSuffix := some ext, tempRemains := false }

/- ### The spec-level notion of filename extension

Claim C6 speaks of "the extension of the original filename".  We formalise
it independently of the code: `e` is the extension of `f` when `f` splits
as a stem followed by a final dot-initiated piece `e` containing no further
dot and no path separator, and when the basename of the stem is not made of
dots alone (so dotfiles such as ".bashrc" have no extension). -/

def IsExtensionOf (e f : String) : Prop :=
  ∃ stem tail, f.toList = stem ++ '.' :: tail ∧ '.' ∉ tail ∧ '/' ∉ tail ∧
    e.toList = '.' :: tail ∧ ∃ c ∈ baseOf stem, c ≠ '.'


/- ### Lemmas about splitAtLastChar -/

theorem splitAtLastChar_eq_none_iff {sep : Char} {cs : List Char} :
    splitAtLastChar sep cs = none ↔ sep ∉ cs := by
  induction cs with
  | nil => simp [splitAtLastChar]
  | cons c cs ih =>
    simp only [splitAtLastChar]
    cases h' : splitAtLastChar sep cs with
    | some ps =>
      have hmem : sep ∈ cs := by
        by_contra hn
        rw [← ih] at hn
        rw [h'] at hn
        exact Option.noConfusion hn
      simp [List.mem_cons, hmem]
    | none =>
      have hn : sep ∉ cs := ih.mp h'
      by_cases hc : c = sep
      · subst hc
        simp
      · simp [hc, hn, Ne.symm hc]

theorem splitAtLastChar_sound {sep : Char} :
    ∀ {cs pre suf : List Char},
      splitAtLastChar sep cs = some (pre, suf) →
      cs = pre ++ sep :: suf ∧ sep ∉ suf := by
  intro cs
  induction cs with
  | nil => intro pre suf h; exact Option.noConfusion h
  | cons c cs ih =>
    intro pre suf h
    simp only [splitAtLastChar] at h
    cases h' : splitAtLastChar sep cs with
    | some ps =>
      obtain ⟨p, s⟩ := ps
      rw [h'] at h
      simp only [Option.some.injEq, Prod.mk.injEq] at h
      obtain ⟨h1, h2⟩ := h
      obtain ⟨ih1, ih2⟩ := ih h'
      subst h1
      subst h2
      exact ⟨by rw [ih1]; rfl, ih2⟩
    | none =>
      rw [h'] at h
      by_cases hc : c = sep
      · subst hc
        rw [if_pos rfl] at h
        cases h
        exact ⟨by simp, splitAtLastChar_eq_none_iff.mp h'⟩
      · rw [if_neg hc] at h
        exact Option.noConfusion h

theorem splitAtLastChar_complete {sep : Char} :
    ∀ (pre : List Char) {suf : List Char}, sep ∉ suf →
      splitAtLastChar sep (pre ++ sep :: suf) = some (pre, suf) := by
  intro pre
  induction pre with
  | nil =>
    intro suf h
    simp only [List.nil_append, splitAtLastChar]
    rw [splitAtLastChar_eq_none_iff.mpr h]
    simp
  | cons a pre ih =>
    intro suf h
    have hrec := ih h
    simp [splitAtLastChar, hrec]

/- ### Characterisation of the staged suffix -/

theorem splitext_snd (f : String) :
    (splitext f).2 =
      (match splitAtLastChar '.' ((baseOf f.toList).dropWhile (fun c => c = '.')) with
        | none => ""
        | some (_, suf) => (⟨'.' :: suf⟩ : String)) := by
  cases h : splitAtLastChar '.' ((baseOf f.toList).dropWhile (fun c => c = '.')) with
  | none =>
    unfold splitext
    simp only [String.toList] at h
    simp [h]
  | some ps =>
    obtain ⟨pre, suf⟩ := ps
    unfold splitext
    simp only [String.toList] at h
    simp [h]

theorem dropWhile_head_neg {α : Type} (p : α → Bool) :
    ∀ (l : List α) {c : α} {rest : List α}, l.dropWhile p = c :: rest → ¬ p c := by
  intro l
  induction l with
  | nil => intro c rest h; exact absurd h (by simp)
  | cons a as ih =>
    intro c rest h
    by_cases hp : p a
    · rw [List.dropWhile_cons_of_pos hp] at h
      exact ih h
    · rw [List.dropWhile_cons_of_neg hp] at h
      cases h
      exact hp

theorem splitext_snd_of_isExtensionOf {e f : String} (h : IsExtensionOf e f) :
    (splitext f).2 = e := by
  obtain ⟨stem, tail, hsplit, hdot, hslash, he, c, hcmem, hcne⟩ := h
  have hne : ('/' : Char) ≠ '.' := by decide
  have hbase : ∃ B, baseOf f.toList = B ++ '.' :: tail ∧ baseOf stem = B := by
    cases hsp : splitAtLastChar '/' stem with
    | some ds =>
      obtain ⟨d, b⟩ := ds
      obtain ⟨hstem_eq, hb⟩ := splitAtLastChar_sound hsp
      refine ⟨b, ?_, by simp [baseOf, hsp]⟩
      have hnotin : '/' ∉ b ++ '.' :: tail := by
        simp [List.mem_append, List.mem_cons, hb, hslash, hne]
      have hform : f.toList = d ++ '/' :: (b ++ '.' :: tail) := by
        rw [hsplit, hstem_eq]
        simp
      rw [baseOf, hform, splitAtLastChar_complete d hnotin]
    | none =>
      have hsl : ('/' : Char) ∉ stem := splitAtLastChar_eq_none_iff.mp hsp
      refine ⟨stem, ?_, by simp [baseOf, hsp]⟩
      have hnone : splitAtLastChar '/' f.toList = none := by
        rw [hsplit]
        exact splitAtLastChar_eq_none_iff.mpr
          (by simp [List.mem_append, List.mem_cons, hsl, hslash, hne])
      rw [baseOf, hnone, hsplit]
  obtain ⟨B, hB, hBstem⟩ := hbase
  rw [hBstem] at hcmem
  have hrest : ∃ c0 rest, B.dropWhile (fun c => c = '.') = c0 :: rest ∧ c0 ≠ '.' := by
    cases hd : B.dropWhile (fun c => c = '.') with
    | nil =>
      exfalso
      have hall := List.dropWhile_eq_nil_iff.mp hd c hcmem
      simp at hall
      exact hcne hall
    | cons c0 rest =>
      refine ⟨c0, rest, rfl, ?_⟩
      have hnp := dropWhile_head_neg (fun c => decide (c = '.')) B hd
      simpa using hnp
  obtain ⟨c0, rest, hd, hc0⟩ := hrest
  have hstemDrop : (B ++ '.' :: tail).dropWhile (fun c => c = '.') =
      (c0 :: rest) ++ '.' :: tail := by
    rw [List.dropWhile_append, hd]
    simp
  have hfinal : splitAtLastChar '.' ((baseOf f.toList).dropWhile (fun c => c = '.')) =
      some (c0 :: rest, tail) := by
    rw [hB, hstemDrop]
    exact splitAtLastChar_complete (c0 :: rest) hdot
  rw [splitext_snd, hfinal]
  obtain ⟨d⟩ := e
  have : d = '.' :: tail := he
  rw [this]

theorem isExtensionOf_of_splitAtLastChar {f : String} {pre suf : List Char}
    (hsp2 : splitAtLastChar '.' ((baseOf f.toList).dropWhile (fun c => c = '.')) = some (pre, suf)) :
    IsExtensionOf ⟨'.' :: suf⟩ f := by
  have hdir : ∃ dir, f.toList = dir ++ baseOf f.toList ∧
      ('/' : Char) ∉ baseOf f.toList ∧
      (∀ ys, ('/' : Char) ∉ ys → baseOf (dir ++ ys) = ys) := by
    cases hsp : splitAtLastChar '/' f.toList with
    | some ds =>
      obtain ⟨d, b⟩ := ds
      obtain ⟨hcs_eq, hb⟩ := splitAtLastChar_sound hsp
      refine ⟨d ++ ['/'], ?_, ?_, ?_⟩
      · rw [baseOf, hsp]
        rw [hcs_eq]
        simp
      · rw [baseOf, hsp]
        exact hb
      · intro ys hys
        have hform : (d ++ ['/']) ++ ys = d ++ '/' :: ys := by simp
        rw [baseOf, hform, splitAtLastChar_complete d hys]
    | none =>
      have hsl : ('/' : Char) ∉ f.toList := splitAtLastChar_eq_none_iff.mp hsp
      refine ⟨[], ?_, ?_, ?_⟩
      · rw [baseOf, hsp]
        simp
      · rw [baseOf, hsp]
        exact hsl
      · intro ys hys
        rw [List.nil_append, baseOf, splitAtLastChar_eq_none_iff.mpr hys]
  obtain ⟨dir, hcs, hbslash, hbaseOf⟩ := hdir
  obtain ⟨hsd, hdotsuf⟩ := splitAtLastChar_sound hsp2
  have hbase_decomp : baseOf f.toList =
      (baseOf f.toList).takeWhile (fun c => c = '.') ++ (pre ++ '.' :: suf) := by
    rw [← hsd]
    rw [List.takeWhile_append_dropWhile]
  have hpre : ∃ c0 pre2, pre = c0 :: pre2 ∧ c0 ≠ '.' := by
    cases hp : pre with
    | nil =>
      exfalso
      rw [hp] at hsd
      have hnp := dropWhile_head_neg (fun c => decide (c = '.')) (baseOf f.toList) hsd
      simp at hnp
    | cons c0 pre2 =>
      refine ⟨c0, pre2, rfl, ?_⟩
      rw [hp] at hsd
      have hnp := dropWhile_head_neg (fun c => decide (c = '.')) (baseOf f.toList) hsd
      simpa using hnp
  obtain ⟨c0, pre2, hp, hc0⟩ := hpre
  refine ⟨dir ++ ((baseOf f.toList).takeWhile (fun c => c = '.') ++ pre), suf, ?_, hdotsuf, ?_, rfl, ?_⟩
  · calc f.toList = dir ++ baseOf f.toList := hcs
      _ = dir ++ ((baseOf f.toList).takeWhile (fun c => c = '.') ++ (pre ++ '.' :: suf)) := by
          rw [← hbase_decomp]
      _ = (dir ++ ((baseOf f.toList).takeWhile (fun c => c = '.') ++ pre)) ++ '.' :: suf := by
          simp
  · intro hmem
    have : ('/' : Char) ∈ baseOf f.toList := by
      rw [hbase_decomp]
      simp [List.mem_append, List.mem_cons, hmem]
    exact hbslash this
  · have hnoslash : ('/' : Char) ∉ (baseOf f.toList).takeWhile (fun c => c = '.') ++ pre := by
      intro hmem
      have : ('/' : Char) ∈ baseOf f.toList := by
        rw [hbase_decomp]
        rcases List.mem_append.mp hmem with h1 | h2
        · exact List.mem_append.mpr (Or.inl h1)
        · exact List.mem_append.mpr (Or.inr (List.mem_append.mpr (Or.inl h2)))
      exact hbslash this
    rw [hbaseOf _ hnoslash]
    refine ⟨c0, ?_, hc0⟩
    rw [hp]
    simp [List.mem_append, List.mem_cons]

theorem isExtensionOf_of_splitext {f e : String}
    (h : (splitext f).2 = e) (hne : e ≠ "") : IsExtensionOf e f := by
  rw [splitext_snd] at h
  cases hsp2 : splitAtLastChar '.' ((baseOf f.toList).dropWhile (fun c => c = '.')) with
  | none =>
    rw [hsp2] at h
    exact absurd h.symm hne
  | some ps =>
    obtain ⟨pre, suf⟩ := ps
    rw [hsp2] at h
    rw [← h]
    exact isExtensionOf_of_splitAtLastChar hsp2

/- ### Shared facts about the handlers -/

theorem transcribe_tempSuffix_present (m : Model) (filename language : Option String)
    (readAudio : UploadRead) (call : DecodeParams → ModelCall) :
    (transcribe (some m) filename language readAudio call).tempSuffix =
      some (stagedSuffix filename) := by
  cases readAudio with
  | err e => rfl
  | ok c =>
    cases h : call (params5 language) with
    | ok raw lang dur => simp [transcribe, h]
    | err e => simp [transcribe, h]

theorem transcribe_stream_tempSuffix_present (m : Model)
    (filename language : Option String)
    (readAudio : UploadRead) (call : DecodeParams → ModelCall) :
    (transcribe_stream (some m) filename language readAudio call).tempSuffix =
      some (stagedSuffix filename) := by
  cases readAudio with
  | err e => rfl
  | ok c =>
    cases h : call (params3 language) with
    | ok raw lang dur => simp [transcribe_stream, h]
    | err e => simp [transcribe_stream, h]

theorem isExtensionOf_ne_empty {e f : String} (h : IsExtensionOf e f) : e ≠ "" := by
  obtain ⟨stem, tail, _, _, _, he, _⟩ := h
  intro h0
  rw [h0] at he
  exact List.noConfusion he

theorem stagedSuffix_of_isExtensionOf {e f : String} (hf : f ≠ "")
    (h : IsExtensionOf e f) : stagedSuffix (some f) = e := by
  have h2 : (splitext f).2 = e := splitext_snd_of_isExtensionOf h
  have h3 : e ≠ "" := isExtensionOf_ne_empty h
  simp [stagedSuffix, effFilename, hf, h2, h3]

theorem stagedSuffix_of_no_extension {f : String} (hf : f ≠ "")
    (h : ∀ e, ¬ IsExtensionOf e f) : stagedSuffix (some f) = ".webm" := by
  by_cases hx : (splitext f).2 = ""
  · simp [stagedSuffix, effFilename, hf, hx]
  · exact absurd (isExtensionOf_of_splitext rfl hx) (h _)

theorem shapeSegments_chain {raw : List RawSegment}
    (h : List.Chain' (fun a b => a.start ≤ b.start) raw) :
    List.Chain' (fun (a b : SegmentOut) => a.start ≤ b.start)
      (shapeSegments raw) := by
  unfold shapeSegments
  rw [List.chain'_map]
  exact h

theorem shapeSegments_spans {raw : List RawSegment}
    (h : ∀ s ∈ raw, s.start ≤ s.«end») :
    ∀ s ∈ shapeSegments raw, s.start ≤ s.«end» := by
  intro s hs
  unfold shapeSegments at hs
  obtain ⟨t, ht, hts⟩ := List.mem_map.mp hs
  rw [← hts]
  exact h t ht

/- ### The claims -/

/-- Claim C3: with the model handle absent, both endpoints return a 503
service-unavailable response, create no temporary file and leave no file
behind — the handle check precedes all file handling. -/
theorem model_absent_503_no_temp_write
    (filename language : Option String) (readAudio : UploadRead)
    (call : DecodeParams → ModelCall) :
    transcribe none filename language readAudio call =
      { response := TResponse.error 503
          "Whisper model not loaded. Please check server logs."
        tempCreated := false, tempSuffix := none, tempRemains := false } ∧
    transcribe_stream none filename language readAudio call =
      { response := SResponse.error 503 "Whisper model not loaded"
        tempCreated := false, tempSuffix := none, tempRemains := false } :=
  ⟨rfl, rfl⟩

/-- Claim C7: every /health request returns status "ok" exactly when the
model handle is present and "model_not_loaded" exactly when it is absent,
model_loaded mirrors the handle's presence, and model_name is the
WHISPER_MODEL environment value (default "small") regardless of whether
the load succeeded.  The embedding is a pure function: no side effects. -/
theorem health_check_spec (m : Option Model) (env : Env) :
    ((health_check m env).status = "ok" ↔ m.isSome = true) ∧
    ((health_check m env).status = "model_not_loaded" ↔ m = none) ∧
    (health_check m env).model_loaded = m.isSome ∧
    (health_check m env).model_name = envGet env "WHISPER_MODEL" "small" := by
  cases m with
  | none =>
    refine ⟨⟨fun h => ?_, fun h => by simp at h⟩,
      ⟨fun _ => rfl, fun _ => rfl⟩, rfl, rfl⟩
    have h2 : ("model_not_loaded" : String) = "ok" := h
    exact absurd h2 (by decide)
  | some a =>
    refine ⟨⟨fun _ => rfl, fun _ => rfl⟩,
      ⟨fun h => ?_, fun h => Option.noConfusion h⟩, rfl, rfl⟩
    have h2 : ("ok" : String) = "model_not_loaded" := h
    exact absurd h2 (by decide)

/-- Claim C8: load_whisper_model never raises: on a missing faster_whisper
dependency (import failure) and on a model-construction exception it
returns None and leaves the global handle absent.  The embedding is total
by construction — both external failures are inputs, and the function
still returns a LoadResult. -/
theorem load_failure_returns_none
    (importOk : Bool) (env : Env) (construct : ModelArgs → Except String Model)
    (h : importOk = false ∨ ∃ msg, construct (loadArgs env) = Except.error msg) :
    (load_whisper_model none importOk env construct).whisper_model = none ∧
    (load_whisper_model none importOk env construct).ret = none := by
  rcases h with h | ⟨msg, h⟩
  · subst h
    exact ⟨rfl, rfl⟩
  · cases importOk with
    | false => exact ⟨rfl, rfl⟩
    | true => simp [load_whisper_model, h]

/-- Witness for C8 at a concrete input: import failure with the handle
absent at startup. -/
theorem load_failure_returns_none_witness :
    (load_whisper_model none false (fun _ => none)
        (fun _ => Except.error "load failed")).whisper_model = none ∧
    (load_whisper_model none false (fun _ => none)
        (fun _ => Except.error "load failed")).ret = none :=
  load_failure_returns_none false (fun _ => none)
    (fun _ => Except.error "load failed") (Or.inl rfl)

/-- Claim C9: with WHISPER_COMPUTE_TYPE unset, the compute precision is
"int8" unless the device string is "cuda", in which case it is "float16";
with WHISPER_COMPUTE_TYPE set, its value is used for either device. -/
theorem compute_type_defaults (env : Env) :
    (env "WHISPER_COMPUTE_TYPE" = none →
      ((loadArgs env).device = "cuda" → (loadArgs env).compute_type = "float16") ∧
      ((loadArgs env).device ≠ "cuda" → (loadArgs env).compute_type = "int8")) ∧
    (∀ v, env "WHISPER_COMPUTE_TYPE" = some v →
      (loadArgs env).compute_type = v) := by
  constructor
  · intro hnone
    constructor
    · intro hdev
      have hdev' : (env "WHISPER_DEVICE").getD "cpu" = "cuda" := hdev
      simp [loadArgs, envGet, hnone, hdev']
    · intro hdev
      have hdev' : ¬ (env "WHISPER_DEVICE").getD "cpu" = "cuda" := hdev
      simp [loadArgs, envGet, hnone, hdev']
  · intro v hv
    by_cases hdev : envGet env "WHISPER_DEVICE" "cpu" = "cuda"
    · simp [loadArgs, envGet, hv, hdev]
    · simp [loadArgs, envGet, hv, hdev]

/-- Witness for C9 at concrete inputs: an environment with only the device
set to "cuda" yields "float16"; one with the compute type set to "int4"
yields "int4". -/
theorem compute_type_defaults_witness :
    (loadArgs (fun k => if k = "WHISPER_DEVICE" then some "cuda" else none)).compute_type
        = "float16" ∧
    (loadArgs (fun k => if k = "WHISPER_COMPUTE_TYPE" then some "int4" else none)).compute_type
        = "int4" :=
  ⟨((compute_type_defaults (fun k => if k = "WHISPER_DEVICE" then some "cuda" else none)).1
      (by decide)).1 (by decide),
    (compute_type_defaults (fun k => if k = "WHISPER_COMPUTE_TYPE" then some "int4" else none)).2
      "int4" (by decide)⟩

/-- Claim C10: load_whisper_model does not validate WHISPER_DEVICE: any
device string other than "cuda" gets the cpu default compute precision
"int8", and the device string reaches the model constructor unchanged. -/
theorem device_not_validated (env : Env) (d : String)
    (hd : env "WHISPER_DEVICE" = some d) (hne : d ≠ "cuda") :
    (loadArgs env).device = d ∧
    (loadArgs env).compute_type = (env "WHISPER_COMPUTE_TYPE").getD "int8" ∧
    (∀ construct m, construct (loadArgs env) = Except.ok m →
      ∀ g, (load_whisper_model g true env construct).ret = some m) := by
  refine ⟨by simp [loadArgs, envGet, hd], by simp [loadArgs, envGet, hd, hne], ?_⟩
  intro construct m hm g
  simp [load_whisper_model, hm]

/-- Witness for C10 at a concrete input: the out-of-range device "tpu" is
passed through with compute precision "int8" and reaches the constructor. -/
theorem device_not_validated_witness :
    (loadArgs (fun k => if k = "WHISPER_DEVICE" then some "tpu" else none)).device = "tpu" ∧
    (loadArgs (fun k => if k = "WHISPER_DEVICE" then some "tpu" else none)).compute_type = "int8" ∧
    (load_whisper_model none true
        (fun k => if k = "WHISPER_DEVICE" then some "tpu" else none)
        (fun _ => Except.ok ⟨7⟩)).ret = some ⟨7⟩ := by
  have h := device_not_validated
    (fun k => if k = "WHISPER_DEVICE" then some "tpu" else none) "tpu"
    (by decide) (by decide)
  exact ⟨h.1, h.2.1, h.2.2 (fun _ => Except.ok ⟨7⟩) ⟨7⟩ rfl none⟩

/-- Claim C1 counterexample: with the model present, a failure while
reading the upload (a 400 on /transcribe, an unshaped error on
/transcribe-stream) leaves the staged temporary file on disk: the read
runs inside the `with` block that creates the file with delete=False,
before the try/finally that unlinks it.  So the claim that the staged file
is deleted on every failure path is false at this input. -/
theorem temp_file_survives_read_failure :
    ((transcribe (some ⟨0⟩) (some "a.wav") (some "zh") (UploadRead.err "boom")
        (fun _ => ModelCall.err "unused")).tempCreated = true ∧
      (transcribe (some ⟨0⟩) (some "a.wav") (some "zh") (UploadRead.err "boom")
        (fun _ => ModelCall.err "unused")).tempRemains = true) ∧
    ((transcribe_stream (some ⟨0⟩) (some "a.wav") (some "zh") (UploadRead.err "boom")
        (fun _ => ModelCall.err "unused")).tempCreated = true ∧
      (transcribe_stream (some ⟨0⟩) (some "a.wav") (some "zh") (UploadRead.err "boom")
        (fun _ => ModelCall.err "unused")).tempRemains = true) :=
  ⟨⟨rfl, rfl⟩, ⟨rfl, rfl⟩⟩

/-- Claim C1 (amended): on both endpoints the staged temporary file is
deleted before the response whenever the upload read succeeds (so on the
model-call success AND failure paths), and with the model absent no file
is created; but when reading the upload fails, the staged file is created
and survives the request. -/
theorem temp_file_lifetime
    (m : Model) (filename language : Option String)
    (call : DecodeParams → ModelCall) (readAudio : UploadRead) :
    ((∃ content, readAudio = UploadRead.ok content) →
      (transcribe (some m) filename language readAudio call).tempRemains = false ∧
      (transcribe_stream (some m) filename language readAudio call).tempRemains = false) ∧
    (∀ e, readAudio = UploadRead.err e →
      (transcribe (some m) filename language readAudio call).tempCreated = true ∧
      (transcribe (some m) filename language readAudio call).tempRemains = true ∧
      (transcribe_stream (some m) filename language readAudio call).tempCreated = true ∧
      (transcribe_stream (some m) filename language readAudio call).tempRemains = true) ∧
    ((transcribe none filename language readAudio call).tempCreated = false ∧
      (transcribe_stream none filename language readAudio call).tempCreated = false) := by
  refine ⟨?_, ?_, rfl, rfl⟩
  · rintro ⟨content, rfl⟩
    constructor
    · cases h5 : call (params5 language) with
      | ok raw lang dur => simp [transcribe, h5]
      | err e => simp [transcribe, h5]
    · cases h3 : call (params3 language) with
      | ok raw lang dur => simp [transcribe_stream, h3]
      | err e => simp [transcribe_stream, h3]
  · rintro e rfl
    exact ⟨rfl, rfl, rfl, rfl⟩

/-- Witness for the amended C1 at concrete inputs: a successful read has
the file deleted on both endpoints; with the model absent no file is
created. -/
theorem temp_file_lifetime_witness :
    ((transcribe (some ⟨0⟩) (some "a.wav") (some "zh") (UploadRead.ok [1])
        (fun _ => ModelCall.ok [] "zh" 0)).tempRemains = false ∧
      (transcribe_stream (some ⟨0⟩) (some "a.wav") (some "zh") (UploadRead.ok [1])
        (fun _ => ModelCall.ok [] "zh" 0)).tempRemains = false) ∧
    ((transcribe none (some "a.wav") (some "zh") (UploadRead.ok [1])
        (fun _ => ModelCall.ok [] "zh" 0)).tempCreated = false ∧
      (transcribe_stream none (some "a.wav") (some "zh") (UploadRead.ok [1])
        (fun _ => ModelCall.ok [] "zh" 0)).tempCreated = false) := by
  have h := temp_file_lifetime ⟨0⟩ (some "a.wav") (some "zh")
    (fun _ => ModelCall.ok [] "zh" 0) (UploadRead.ok [1])
  exact ⟨h.1 ⟨[1], rfl⟩, h.2.2⟩

/-- Claim C2: every successful /transcribe response has text equal to the
concatenation, in segment order with no inserted separator, of each
segment's whitespace-trimmed text, and each returned segment carries that
same trimmed text (Python str.strip embedded as String.trim). -/
theorem transcribe_text_concat
    (m : Model) (filename language : Option String) (content : List Nat)
    (call : DecodeParams → ModelCall)
    (raw : List RawSegment) (lang : String) (dur : Rat)
    (hcall : call (params5 language) = ModelCall.ok raw lang dur) :
    ∃ res : TranscriptionResult,
      (transcribe (some m) filename language (UploadRead.ok content) call).response
        = TResponse.ok res ∧
      res.text = String.join (res.segments.map (fun s => s.text)) ∧
      res.segments = raw.map
        (fun s => { start := s.start, «end» := s.«end», text := s.text.trim }) := by
  refine ⟨{ text := fullText raw, language := lang, duration := dur,
            segments := shapeSegments raw }, ?_, ?_, rfl⟩
  · simp [transcribe, hcall]
  · simp [fullText, shapeSegments, List.map_map]
    rfl

/-- Witness for C2 at a concrete input: two segments with surrounding
whitespace are trimmed and concatenated with no separator. -/
theorem transcribe_text_concat_witness :
    ∃ res : TranscriptionResult,
      (transcribe (some ⟨0⟩) (some "a.wav") (some "zh") (UploadRead.ok [1])
          (fun _ => ModelCall.ok
            [⟨0, 1, " hello "⟩, ⟨1, 2, " world "⟩] "zh" 2)).response
        = TResponse.ok res ∧
      res.text = String.join (res.segments.map (fun s => s.text)) ∧
      res.segments = ([⟨0, 1, " hello "⟩, ⟨1, 2, " world "⟩] : List RawSegment).map
        (fun s => { start := s.start, «end» := s.«end», text := s.text.trim }) :=
  transcribe_text_concat ⟨0⟩ (some "a.wav") (some "zh") [1] _
    [⟨0, 1, " hello "⟩, ⟨1, 2, " world "⟩] "zh" 2 rfl

/-- Claim C4: with the model present, /transcribe maps a read failure to a
400 whose detail carries the underlying exception text and a model failure
to a 500 whose detail carries the underlying exception text, while
/transcribe-stream has no such shaping: either failure in its body escapes
as an unshaped error carrying the raw exception. -/
theorem error_shaping
    (m : Model) (filename language : Option String) (content : List Nat)
    (call : DecodeParams → ModelCall) (e : String) :
    ((transcribe (some m) filename language (UploadRead.err e) call).response =
        TResponse.error 400 ("Failed to read audio: " ++ e)) ∧
    (call (params5 language) = ModelCall.err e →
      (transcribe (some m) filename language (UploadRead.ok content) call).response =
        TResponse.error 500 ("Transcription failed: " ++ e)) ∧
    ((transcribe_stream (some m) filename language (UploadRead.err e) call).response =
        SResponse.unhandled e) ∧
    (call (params3 language) = ModelCall.err e →
      (transcribe_stream (some m) filename language (UploadRead.ok content) call).response =
        SResponse.unhandled e) := by
  refine ⟨rfl, ?_, rfl, ?_⟩
  · intro h
    simp [transcribe, h]
  · intro h
    simp [transcribe_stream, h]

/-- Witness for C4 at concrete inputs: both failure kinds on both
endpoints. -/
theorem error_shaping_witness :
    ((transcribe (some ⟨0⟩) (some "a.wav") (some "zh") (UploadRead.err "boom")
        (fun _ => ModelCall.err "boom")).response =
      TResponse.error 400 ("Failed to read audio: " ++ "boom")) ∧
    ((transcribe (some ⟨0⟩) (some "a.wav") (some "zh") (UploadRead.ok [1])
        (fun _ => ModelCall.err "boom")).response =
      TResponse.error 500 ("Transcription failed: " ++ "boom")) ∧
    ((transcribe_stream (some ⟨0⟩) (some "a.wav") (some "zh") (UploadRead.err "boom")
        (fun _ => ModelCall.err "boom")).response = SResponse.unhandled "boom") ∧
    ((transcribe_stream (some ⟨0⟩) (some "a.wav") (some "zh") (UploadRead.ok [1])
        (fun _ => ModelCall.err "boom")).response = SResponse.unhandled "boom") := by
  have h := error_shaping ⟨0⟩ (some "a.wav") (some "zh") [1]
    (fun _ => ModelCall.err "boom") "boom"
  exact ⟨h.1, h.2.1 rfl, h.2.2.1, h.2.2.2 rfl⟩

/-- Claim C5 counterexample: the handlers copy each segment's start and
end through unchanged (lines 154-158 / 217-221) and validate nothing, so
a model call emitting out-of-order segments whose first span has start
after end yields responses on both endpoints whose segments list has a
decreasing start pair and a segment with end before start: the
unconditional claim is false at this input. -/
theorem segments_invariant_not_enforced :
    (∃ res : TranscriptionResult,
      (transcribe (some ⟨0⟩) (some "a.wav") (some "zh") (UploadRead.ok [1])
          (fun _ => ModelCall.ok [⟨2, 1, "a"⟩, ⟨1, 3, "b"⟩] "zh" 3)).response
        = TResponse.ok res ∧
      ¬ List.Chain' (fun (a b : SegmentOut) => a.start ≤ b.start) res.segments ∧
      ¬ (∀ s ∈ res.segments, s.start ≤ s.«end»)) ∧
    (∃ res : StreamResult,
      (transcribe_stream (some ⟨0⟩) (some "a.wav") (some "zh") (UploadRead.ok [1])
          (fun _ => ModelCall.ok [⟨2, 1, "a"⟩, ⟨1, 3, "b"⟩] "zh" 3)).response
        = SResponse.ok res ∧
      ¬ List.Chain' (fun (a b : SegmentOut) => a.start ≤ b.start) res.segments ∧
      ¬ (∀ s ∈ res.segments, s.start ≤ s.«end»)) := by
  constructor
  · refine ⟨{ text := fullText [⟨2, 1, "a"⟩, ⟨1, 3, "b"⟩],
              language := "zh", duration := 3,
              segments := shapeSegments [⟨2, 1, "a"⟩, ⟨1, 3, "b"⟩] }, rfl, ?_, ?_⟩
    · intro h
      cases h with
      | cons hr _ => exact absurd hr (by decide)
    · intro h
      exact absurd (h ⟨2, 1, "a".trim⟩ (List.mem_cons_self _ _)) (by decide)
  · refine ⟨{ segments := shapeSegments [⟨2, 1, "a"⟩, ⟨1, 3, "b"⟩],
              language := "zh", duration := 3 }, rfl, ?_, ?_⟩
    · intro h
      cases h with
      | cons hr _ => exact absurd hr (by decide)
    · intro h
      exact absurd (h ⟨2, 1, "a".trim⟩ (List.mem_cons_self _ _)) (by decide)

/-- Claim C5 (amended): the handlers preserve the model's segment order
and copy start and end through unchanged but do not enforce the invariant;
provided the external model emits its segment sequence in chronological
order with each span's end at or after its start, every segments list
returned by /transcribe or /transcribe-stream has non-decreasing start
times across consecutive segments and every segment satisfies end at or
after start. -/
theorem segments_chronological
    (m : Model) (filename language : Option String) (content : List Nat)
    (call : DecodeParams → ModelCall)
    (raw raw2 : List RawSegment) (lang lang2 : String) (dur dur2 : Rat)
    (hcall5 : call (params5 language) = ModelCall.ok raw lang dur)
    (hchron5 : List.Chain' (fun a b => a.start ≤ b.start) raw)
    (hspan5 : ∀ s ∈ raw, s.start ≤ s.«end»)
    (hcall3 : call (params3 language) = ModelCall.ok raw2 lang2 dur2)
    (hchron3 : List.Chain' (fun a b => a.start ≤ b.start) raw2)
    (hspan3 : ∀ s ∈ raw2, s.start ≤ s.«end») :
    (∃ res, (transcribe (some m) filename language (UploadRead.ok content) call).response
        = TResponse.ok res ∧
      List.Chain' (fun (a b : SegmentOut) => a.start ≤ b.start) res.segments ∧
      ∀ s ∈ res.segments, s.start ≤ s.«end») ∧
    (∃ res, (transcribe_stream (some m) filename language (UploadRead.ok content) call).response
        = SResponse.ok res ∧
      List.Chain' (fun (a b : SegmentOut) => a.start ≤ b.start) res.segments ∧
      ∀ s ∈ res.segments, s.start ≤ s.«end») := by
  constructor
  · refine ⟨{ text := fullText raw, language := lang, duration := dur,
              segments := shapeSegments raw }, ?_,
      shapeSegments_chain hchron5, shapeSegments_spans hspan5⟩
    simp [transcribe, hcall5]
  · refine ⟨{ segments := shapeSegments raw2, language := lang2, duration := dur2 }, ?_,
      shapeSegments_chain hchron3, shapeSegments_spans hspan3⟩
    simp [transcribe_stream, hcall3]

/-- Witness for C5 at a concrete input: a two-segment chronological model
output. -/
theorem segments_chronological_witness :
    (∃ res, (transcribe (some ⟨0⟩) (some "a.wav") (some "zh") (UploadRead.ok [1])
        (fun _ => ModelCall.ok [⟨0, 1, "a"⟩, ⟨1, 2, "b"⟩] "zh" 2)).response
        = TResponse.ok res ∧
      List.Chain' (fun (a b : SegmentOut) => a.start ≤ b.start) res.segments ∧
      ∀ s ∈ res.segments, s.start ≤ s.«end») ∧
    (∃ res, (transcribe_stream (some ⟨0⟩) (some "a.wav") (some "zh") (UploadRead.ok [1])
        (fun _ => ModelCall.ok [⟨0, 1, "a"⟩, ⟨1, 2, "b"⟩] "zh" 2)).response
        = SResponse.ok res ∧
      List.Chain' (fun (a b : SegmentOut) => a.start ≤ b.start) res.segments ∧
      ∀ s ∈ res.segments, s.start ≤ s.«end») :=
  segments_chronological ⟨0⟩ (some "a.wav") (some "zh") [1] _
    [⟨0, 1, "a"⟩, ⟨1, 2, "b"⟩] [⟨0, 1, "a"⟩, ⟨1, 2, "b"⟩] "zh" "zh" 2 2
    rfl (List.Chain.cons (by decide) List.Chain.nil) (by decide)
    rfl (List.Chain.cons (by decide) List.Chain.nil) (by decide)

/-- Claim C6: on both endpoints the staged temp file's suffix is the
extension of the original filename when one is present (IsExtensionOf is
the spec-level notion: the final dot-initiated piece of the basename,
where a basename of dots alone has no extension), and is ".webm" when the
filename is absent, empty, or has no extension. -/
theorem staged_suffix_spec
    (m : Model) (language : Option String) (readAudio : UploadRead)
    (call : DecodeParams → ModelCall) :
    ((transcribe (some m) none language readAudio call).tempSuffix = some ".webm") ∧
    ((transcribe_stream (some m) none language readAudio call).tempSuffix = some ".webm") ∧
    ((transcribe (some m) (some "clip.mp3") language readAudio call).tempSuffix
        = some ".mp3") ∧
    (∀ f e, f ≠ "" → IsExtensionOf e f →
      (transcribe (some m) (some f) language readAudio call).tempSuffix = some e ∧
      (transcribe_stream (some m) (some f) language readAudio call).tempSuffix = some e) ∧
    (∀ f, f ≠ "" → (∀ e, ¬ IsExtensionOf e f) →
      (transcribe (some m) (some f) language readAudio call).tempSuffix = some ".webm" ∧
      (transcribe_stream (some m) (some f) language readAudio call).tempSuffix
        = some ".webm") := by
  refine ⟨?_, ?_, ?_, ?_, ?_⟩
  · rw [transcribe_tempSuffix_present]
    decide
  · rw [transcribe_stream_tempSuffix_present]
    decide
  · rw [transcribe_tempSuffix_present]
    decide
  · intro f e hf he
    rw [transcribe_tempSuffix_present, transcribe_stream_tempSuffix_present,
      stagedSuffix_of_isExtensionOf hf he]
    exact ⟨rfl, rfl⟩
  · intro f hf hno
    rw [transcribe_tempSuffix_present, transcribe_stream_tempSuffix_present,
      stagedSuffix_of_no_extension hf hno]
    exact ⟨rfl, rfl⟩

/-- Witness for C6 at concrete inputs: a filename with extension ".m4a"
keeps it on both endpoints; an extension-less filename falls back to
".webm" on both. -/
theorem staged_suffix_spec_witness :
    ((transcribe (some ⟨0⟩) (some "voice.note.m4a") (some "zh") (UploadRead.ok [1])
        (fun _ => ModelCall.ok [] "zh" 0)).tempSuffix = some ".m4a") ∧
    ((transcribe_stream (some ⟨0⟩) (some "voice.note.m4a") (some "zh") (UploadRead.ok [1])
        (fun _ => ModelCall.ok [] "zh" 0)).tempSuffix = some ".m4a") ∧
    ((transcribe (some ⟨0⟩) (some "rawaudio") (some "zh") (UploadRead.ok [1])
        (fun _ => ModelCall.ok [] "zh" 0)).tempSuffix = some ".webm") ∧
    ((transcribe_stream (some ⟨0⟩) (some "rawaudio") (some "zh") (UploadRead.ok [1])
        (fun _ => ModelCall.ok [] "zh" 0)).tempSuffix = some ".webm") := by
  have h := staged_suffix_spec ⟨0⟩ (some "zh") (UploadRead.ok [1])
    (fun _ => ModelCall.ok [] "zh" 0)
  have hext : IsExtensionOf ".m4a" "voice.note.m4a" := by
    refine ⟨"voice.note".toList, ['m', '4', 'a'], ?_, ?_, ?_, ?_, ⟨'v', ?_, ?_⟩⟩ <;> decide
  have hno : ∀ e, ¬ IsExtensionOf e "rawaudio" := by
    rintro e ⟨stem, tail, hsplit, -⟩
    have hdot : '.' ∈ "rawaudio".toList := by
      rw [hsplit]
      simp
    exact absurd hdot (by decide)
  have h1 := h.2.2.2.1 "voice.note.m4a" ".m4a" (by decide) hext
  have h2 := h.2.2.2.2 "rawaudio" (by decide) hno
  exact ⟨h1.1, h1.2, h2.1, h2.2⟩

end WhisperService
